import Mathlib

set_option maxRecDepth 8192

/-!
Verification of the Craft test-report reporter (`src/reporter/craft-reporter.ts`)
against its natural-language specification.

The reporter collects one `TestEntry` per concluded test attempt (`onTestEnd`),
collapsing retries so that at most one entry per stable test id survives;
normalizes free-form annotations and the hierarchical title path into structured
metadata (`extractMetadata`); at run end sorts entries by display name with a
numeric-aware, case-insensitive comparison and computes summary counts
(`onEnd`); loads a historical comments file defensively
(`loadExistingComments`); and injects data into an HTML template
(`generateHTMLReport`).

All definitions below are shallow embeddings of those functions.  Strings that
the template machinery manipulates are modelled as `List Char`; machine external
facilities (the JSON parser of the platform, the file system) are passed in as
explicit arguments.
-/

/-- Final status of one test attempt, as delivered by the test-running host.
The host's status domain is `passed | failed | timedOut | skipped |
interrupted` (the reporter's own `switch` has a default branch for statuses
beyond the first four; the spec calls such a status "unknown"). -/
inductive Status where
  | passed
  | failed
  | timedOut
  | skipped
  | interrupted
deriving DecidableEq, BEq, Repr

/-- One `{type, description}` annotation attached to a test
(`test.annotations` element); `description` is optional. -/
structure AnnotationItem where
  type : String
  description : Option String := none
deriving DecidableEq, Repr

/-- `TestMetadata` from `src/types.ts`: every field optional (`none` models an
absent / `undefined` field of the TS object). `parameters` is the insertion
ordered key/value object for unrecognized annotation kinds. -/
structure TestMetadata where
  epic : Option String := none
  feature : Option String := none
  story : Option String := none
  suite : Option String := none
  subSuite : Option String := none
  parentSuite : Option String := none
  severity : Option String := none
  owner : Option String := none
  tags : Option (List String) := none
  description : Option String := none
  parameters : Option (List (String × String)) := none
deriving DecidableEq, Repr

/-- One element of `TestResult.errors`: `message` and `stack` are optional. -/
structure ErrorInfo where
  message : Option String := none
  stack : Option String := none
deriving DecidableEq, Repr

/-- The parts of a Playwright `TestCase` that `onTestEnd` reads. -/
structure TestCaseInfo where
  id : String
  title : String
  titlePath : List String
  annotations : List AnnotationItem := []
  file : String := ""
  line : Nat := 0
deriving DecidableEq, Repr

/-- The parts of a Playwright `TestResult` that `onTestEnd` reads;
`startTime` is kept as its ISO-8601 rendering. -/
structure TestResultInfo where
  status : Status
  duration : Nat := 0
  errors : List ErrorInfo := []
  startTime : String := ""
  retry : Nat := 0
deriving DecidableEq, Repr

/-- `TestEntry` from `src/types.ts`: the aggregated record for one test. -/
structure TestEntry where
  testId : String
  name : String
  fullTitle : String := ""
  status : Status
  duration : Nat := 0
  errorTrace : Option String := none
  metadata : TestMetadata := {}
  filePath : String := ""
  line : Nat := 0
  startTime : String := ""
  retries : Nat := 0
deriving DecidableEq, Repr

/-! ## Run aggregation (`onTestEnd`, lines 58-64) -/

/-- The retry-collapse step of `onTestEnd`: `findIndex` on `testId`; if an
entry with the same id exists it is replaced in place (`this.tests[i] = entry`),
otherwise the entry is pushed at the end. -/
def recordOutcome (tests : List TestEntry) (entry : TestEntry) : List TestEntry :=
  match tests.findIdx? (fun t => t.testId == entry.testId) with
  | some i => tests.set i entry
  | none => tests ++ [entry]

/-- The collection after a whole sequence of `onTestEnd` calls, starting from
the reporter's initial empty `this.tests`. -/
def runAll (entries : List TestEntry) : List TestEntry :=
  entries.foldl recordOutcome []

/-- First occurrences of the ids of a call sequence, in order: the position a
test id occupies in the collection is decided by its first insertion. -/
def dedupFirst (ids : List String) : List String :=
  ids.foldl (fun acc x => if x ∈ acc then acc else acc ++ [x]) []


/-! ## Natural ordering of display names (`onEnd` line 173)

The source sorts with `a.name.localeCompare(b.name, undefined, { numeric:
true, sensitivity: 'base' })`.  For the ASCII strings the reporter deals with,
that ECMA-402 collation compares maximal digit runs by numeric value and all
other characters case-insensitively.  `Array.prototype.sort` is a stable sort,
modelled here by stable insertion sort (for a consistent comparator the stable
sort of a list is unique, so the choice of algorithm is immaterial). -/

/-- One collation unit of a display name: a maximal run of decimal digits, or
a single lower-cased non-digit character. -/
inductive NameTok where
  | num (digits : List Char)
  | ch (c : Char)
deriving DecidableEq, Repr

/-- Split a string into collation units; digit runs are kept whole, other
characters are lower-cased (`sensitivity: 'base'` on ASCII). -/
def tokenize (s : List Char) : List NameTok :=
  s.foldr
    (fun c acc =>
      if c.isDigit then
        match acc with
        | NameTok.num ds :: rest => NameTok.num (c :: ds) :: rest
        | _ => NameTok.num [c] :: acc
      else NameTok.ch c.toLower :: acc)
    []

/-- Numeric value of a digit run. -/
def digitsVal (ds : List Char) : Nat :=
  ds.foldl (fun n c => n * 10 + (c.toNat - '0'.toNat)) 0

/-- Compare two characters by code point. -/
def cmpChar (a b : Char) : Ordering := compare a.toNat b.toNat

/-- Compare two collation units: digit runs numerically, characters by code
point.  A digit run never collates equal to a non-digit character (mixed
comparisons fall back to the leading code points, digit runs first on a tie;
`tokenize` output never exercises that tie). -/
def cmpTok : NameTok → NameTok → Ordering
  | NameTok.num a, NameTok.num b => compare (digitsVal a) (digitsVal b)
  | NameTok.num a, NameTok.ch c => (cmpChar (a.headD '0') c).then .lt
  | NameTok.ch c, NameTok.num b => (cmpChar c (b.headD '0')).then .gt
  | NameTok.ch a, NameTok.ch b => cmpChar a b

/-- Lexicographic comparison of collation unit sequences. -/
def cmpToks : List NameTok → List NameTok → Ordering
  | [], [] => .eq
  | [], _ :: _ => .lt
  | _ :: _, [] => .gt
  | a :: as, b :: bs =>
    match cmpTok a b with
    | .eq => cmpToks as bs
    | o => o

/-- The comparator of `onEnd` line 173: numeric-aware, case-insensitive
comparison of display names. -/
def natCmpS (a b : String) : Ordering :=
  cmpToks (tokenize a.data) (tokenize b.data)

/-- Insert an entry behind every entry that strictly precedes it; among
entries that collate equal the inserted one goes last of the earlier-inserted
ones it follows, i.e. original order is kept. -/
def insertSorted (e : TestEntry) : List TestEntry → List TestEntry
  | [] => [e]
  | x :: xs =>
    if natCmpS e.name x.name = .gt then x :: insertSorted e xs
    else e :: x :: xs

/-- `this.tests.sort(comparator)` of `onEnd` line 173: stable sort on display
name. -/
def sortTests : List TestEntry → List TestEntry
  | [] => []
  | x :: xs => insertSorted x (sortTests xs)


/-- A minimal entry used by the concrete ordering examples. -/
def sampleEntry (nm : String) : TestEntry :=
  { testId := nm, name := nm, status := Status.passed }


/-! ## Metadata extraction (`extractMetadata`, lines 88-153) -/

/-- `String.prototype.toLowerCase` restricted to ASCII, written so the
kernel can evaluate it on literals. -/
def toLowerS (s : String) : String := String.mk (s.data.map Char.toLower)

/-- `annotation.description || ''`: the dispatched value is the description,
with an absent or empty description collapsing to the empty string. -/
def valueOf (a : AnnotationItem) : String := a.description.getD ""

/-- JS object update `obj[k] = v` on an insertion-ordered string map:
replace in place if the key exists, otherwise append. -/
def upsert : List (String × String) → String → String → List (String × String)
  | [], k, v => [(k, v)]
  | (k', v') :: rest, k, v =>
    if k' = k then (k, v) :: rest else (k', v') :: upsert rest k v

/-- Key lookup in an insertion-ordered string map. -/
def lookupKV : List (String × String) → String → Option String
  | [], _ => none
  | (k', v') :: rest, k => if k' = k then some v' else lookupKV rest k

/-- The annotation kinds with their own `case` in the `switch` of
`extractMetadata`; every other kind falls into the `parameters` default. -/
def recognizedKinds : List String :=
  ["epic", "feature", "story", "suite", "subsuite", "parentsuite",
   "severity", "owner", "tag", "description"]

/-- One iteration of the annotation loop of `extractMetadata` (lines 92-135):
lower-case the kind and dispatch.  Recognized single-valued kinds assign the
field, `tag` pushes onto the tags array (created on first use), any other kind
with a non-empty value is stored in `parameters` under the lower-cased kind. -/
def applyAnn (m : TestMetadata) (a : AnnotationItem) : TestMetadata :=
  let t := toLowerS a.type
  let v := valueOf a
  if t = "epic" then { m with epic := some v }
  else if t = "feature" then { m with feature := some v }
  else if t = "story" then { m with story := some v }
  else if t = "suite" then { m with suite := some v }
  else if t = "subsuite" then { m with subSuite := some v }
  else if t = "parentsuite" then { m with parentSuite := some v }
  else if t = "severity" then { m with severity := some v }
  else if t = "owner" then { m with owner := some v }
  else if t = "tag" then { m with tags := some (m.tags.getD [] ++ [v]) }
  else if t = "description" then { m with description := some v }
  else if v ≠ "" then { m with parameters := some (upsert (m.parameters.getD []) t v) }
  else m

/-- The annotation loop of `extractMetadata`, starting from the empty
metadata object. -/
def annPhase (anns : List AnnotationItem) : TestMetadata :=
  anns.foldl applyAnn {}

/-- JS truthiness of an optional string field: `undefined` and `""` are both
falsy, so a field set to the empty string counts as unset. -/
def isSet (o : Option String) : Bool := o.getD "" != ""

/-- The hierarchy back-fill of `extractMetadata` (lines 137-150): only when
the title path has more than one segment, fill `parentSuite`, `suite` and
`subSuite` from the first three segments, each only when the field is falsy
and the path is long enough. -/
def backFill (m : TestMetadata) (titlePath : List String) : TestMetadata :=
  if 1 < titlePath.length then
    let m1 :=
      if isSet m.parentSuite = false ∧ 1 < titlePath.length then
        { m with parentSuite := some (titlePath[0]?.getD "") }
      else m
    let m2 :=
      if isSet m1.suite = false ∧ 2 < titlePath.length then
        { m1 with suite := some (titlePath[1]?.getD "") }
      else m1
    let m3 :=
      if isSet m2.subSuite = false ∧ 3 < titlePath.length then
        { m2 with subSuite := some (titlePath[2]?.getD "") }
      else m2
    m3
  else m

/-- `extractMetadata` on an explicit annotation list and title path:
annotation dispatch, then hierarchy back-fill. -/
def extractMeta (anns : List AnnotationItem) (titlePath : List String) :
    TestMetadata :=
  backFill (annPhase anns) titlePath

/-- `extractMetadata(test)` (line 88). -/
def extractMetadata (test : TestCaseInfo) : TestMetadata :=
  extractMeta test.annotations test.titlePath

/-! ## Error formatting and entry construction (`onTestEnd` lines 41-64,
`formatErrors` lines 155-167) -/

/-- Format one error: the message (or empty), with the stack appended after a
newline when the stack is truthy (present and non-empty). -/
def formatOneError (e : ErrorInfo) : String :=
  let msg := e.message.getD ""
  let st := e.stack.getD ""
  if st = "" then msg else msg ++ "\n" ++ st

/-- `formatErrors`: `undefined` when the error list is empty, otherwise the
formatted errors joined by a delimiter line. -/
def formatErrors (errors : List ErrorInfo) : Option String :=
  if errors.isEmpty then none
  else some (String.intercalate "\n---\n" (errors.map formatOneError))

/-- The `TestEntry` built by `onTestEnd` (lines 44-56) from a concluded test
and its result. -/
def mkEntry (test : TestCaseInfo) (result : TestResultInfo) : TestEntry :=
  { testId := test.id
    name := test.title
    fullTitle := String.intercalate " > " test.titlePath
    status := result.status
    duration := result.duration
    errorTrace := formatErrors result.errors
    metadata := extractMetadata test
    filePath := test.file
    line := test.line
    startTime := result.startTime
    retries := result.retry }

/-! ## Run summary (`onEnd`, lines 169-196) -/

/-- `ReportData` from `src/types.ts`. -/
structure ReportData where
  timestamp : String
  totalTests : Nat
  passed : Nat
  failed : Nat
  skipped : Nat
  duration : Nat
  tests : List TestEntry
  comments : List (String × String)
deriving DecidableEq, Repr

/-- The summary built by `onEnd` (lines 172-184): sort the collection in
place, then count by status (`failed` counts `failed` and `timedOut`). -/
def mkReportData (tests : List TestEntry) (duration : Nat)
    (comments : List (String × String)) (timestamp : String) : ReportData :=
  let sorted := sortTests tests
  { timestamp := timestamp
    totalTests := sorted.length
    passed := (sorted.filter (fun t => t.status == Status.passed)).length
    failed := (sorted.filter
      (fun t => t.status == Status.failed || t.status == Status.timedOut)).length
    skipped := (sorted.filter (fun t => t.status == Status.skipped)).length
    duration := duration
    tests := sorted
    comments := comments }

/-! ## Comment store (`loadExistingComments`, lines 229-239)

The platform pieces are passed explicitly: `file` is the content of
`comments.json` when that path exists, and `parseJson` models `JSON.parse`,
returning `none` when the parser throws. -/

/-- `loadExistingComments`: empty mapping when the file is missing, the parse
result when parsing succeeds, and an empty mapping (the `catch` branch)
when parsing throws. -/
def loadExistingComments (parseJson : String → Option (List (String × String)))
    (file : Option String) : List (String × String) :=
  match file with
  | some content => (parseJson content).getD []
  | none => []

/-! ## Template substitution (`generateHTMLReport`, lines 281-287)

`String.prototype.replace` with a string pattern substitutes only the first
occurrence; with the global regex used for the title placeholder it
substitutes every occurrence.  In both cases ECMA-262 GetSubstitution
rewrites `$`-sequences inside the *replacement* string: `$$` produces a
dollar sign, `$&` the matched text, `$` followed by a backquote the part of
the input before the match, `$'` the part after it; any other `$` is
literal (the patterns here have no capture groups, so `$n` stays literal).
Template text is modelled as `List Char`. -/

/-- Does `pat` occur at the start of the text? -/
def startsWithL : List Char → List Char → Bool
  | [], _ => true
  | _ :: _, [] => false
  | p :: ps, c :: cs => p == c && startsWithL ps cs

/-- ECMA-262 GetSubstitution for a replacement string, with `m` the matched
text, `pre` the input before the match and `post` the input after it.  The
backquote character is written `Char.ofNat 96`. -/
def getSubst (m pre post : List Char) : List Char → List Char
  | [] => []
  | c :: rest =>
    if c = '$' then
      match rest with
      | [] => ['$']
      | d :: rest' =>
        if d = '$' then '$' :: getSubst m pre post rest'
        else if d = '&' then m ++ getSubst m pre post rest'
        else if d = Char.ofNat 96 then pre ++ getSubst m pre post rest'
        else if d = '\'' then post ++ getSubst m pre post rest'
        else '$' :: getSubst m pre post (d :: rest')
    else c :: getSubst m pre post rest

/-- Worker for first-occurrence replacement: `pre` is the part of the
original input already scanned past. -/
def replaceFirstGo (pat rep : List Char) : List Char → List Char → List Char
  | pre, [] => if startsWithL pat [] then getSubst pat pre [] rep else []
  | pre, c :: cs =>
    if startsWithL pat (c :: cs) then
      getSubst pat pre ((c :: cs).drop pat.length) rep ++
        (c :: cs).drop pat.length
    else c :: replaceFirstGo pat rep (pre ++ [c]) cs

/-- JS `text.replace(pat, rep)` with a plain-string pattern: substitute the
first occurrence only (applying GetSubstitution to the replacement), or
return the text unchanged when there is none. -/
def replaceFirstL (pat rep s : List Char) : List Char :=
  replaceFirstGo pat rep [] s

/-- Does `pat` occur anywhere in the text? -/
def occursIn (pat : List Char) : List Char → Bool
  | [] => startsWithL pat []
  | c :: cs => startsWithL pat (c :: cs) || occursIn pat cs

/-- Fuelled worker for global replacement; `pre` is the original input before
the scan point.  Consuming at least one character per step, fuel `s.length`
always suffices for a non-empty pattern. -/
def replaceAllGo (pat rep : List Char) : Nat → List Char → List Char → List Char
  | _, _, [] => []
  | 0, _, l => l
  | fuel + 1, pre, c :: cs =>
    if startsWithL pat (c :: cs) then
      getSubst pat pre ((c :: cs).drop pat.length) rep ++
        replaceAllGo pat rep fuel (pre ++ pat) ((c :: cs).drop pat.length)
    else c :: replaceAllGo pat rep fuel (pre ++ [c]) cs

/-- Global replacement of the suffix `s` of an input whose already-scanned
part is `pre`. -/
def replaceAllFrom (pat rep pre s : List Char) : List Char :=
  replaceAllGo pat rep s.length pre s

/-- JS `text.replace(/pat/g, rep)`: substitute every occurrence (applying
GetSubstitution at each), scanning left to right past each replacement. -/
def replaceAllL (pat rep s : List Char) : List Char :=
  replaceAllGo pat rep s.length [] s

/-- The style marker of the template. -/
def styleMarker : List Char := "/* INJECT_STYLES */".data

/-- The script marker of the template. -/
def scriptMarker : List Char := "/* INJECT_SCRIPT */".data

/-- The data marker of the template. -/
def dataMarker : List Char := "/* INJECT_DATA */".data

/-- The repeatable title placeholder of the template. -/
def titleMarker : List Char := "\x7b\x7bTITLE\x7d\x7d".data

/-- The logo marker of the template. -/
def logoMarker : List Char :=
  ['<', '!', '-', '-', ' ', 'I', 'N', 'J', 'E', 'C', 'T', '_', 'L', 'O', 'G',
   'O', ' ', '-', '-', '>']

/-- The substitution chain of `generateHTMLReport` (lines 282-287): style,
script and data markers replaced once each, every title placeholder replaced,
then the logo marker replaced once.  `dataJson` stands for
`JSON.stringify(data)`, the serialized run summary handed to the data
substitution. -/
def renderTemplate (template css js dataJson title logoHtml : List Char) :
    List Char :=
  replaceFirstL logoMarker logoHtml
    (replaceAllL titleMarker title
      (replaceFirstL dataMarker dataJson
        (replaceFirstL scriptMarker js
          (replaceFirstL styleMarker css template))))

/-! ## Logo embedding (`generateHTMLReport`, lines 268-279) -/

/-- The base64 alphabet. -/
def b64Alphabet : List Char :=
  "ABCDEFGHIJKLMNOPQRSTUVWXYZabcdefghijklmnopqrstuvwxyz0123456789+/".data

/-- The base64 digit for a 6-bit value. -/
def b64Char (n : Nat) : Char := b64Alphabet.getD n 'A'

/-- `Buffer.toString('base64')`: standard base64 with `=` padding, bytes
taken three at a time. -/
def base64Encode : List Nat → List Char
  | [] => []
  | [a] => [b64Char (a / 4), b64Char (a % 4 * 16), '=', '=']
  | [a, b] => [b64Char (a / 4), b64Char (a % 4 * 16 + b / 16),
      b64Char (b % 16 * 4), '=']
  | a :: b :: c :: rest =>
    b64Char (a / 4) :: b64Char (a % 4 * 16 + b / 16) ::
      b64Char (b % 16 * 4 + c / 64) :: b64Char (c % 64) :: base64Encode rest

/-- The part of the path after the last slash. -/
def baseNameL (s : List Char) : List Char :=
  s.foldl (fun acc c => if c = '/' then [] else acc ++ [c]) []

/-- `path.extname`: the suffix of the basename from its last dot, or empty
when the basename has no dot or only a leading one. -/
def extnameL (s : List Char) : List Char :=
  let b := baseNameL s
  match b.reverse.findIdx? (fun c => c == '.') with
  | none => []
  | some i => if i + 1 = b.length then [] else '.' :: (b.reverse.take i).reverse

/-- The MIME type chosen for a (lower-cased) logo extension (line 276). -/
def logoMime (ext : List Char) : List Char :=
  if ext = ".png".data then "image/png".data
  else if ext = ".jpg".data ∨ ext = ".jpeg".data then "image/jpeg".data
  else if ext = ".svg".data then "image/svg+xml".data
  else "image/png".data

/-- The logo HTML of `generateHTMLReport` (lines 268-279): empty when no logo
is configured; otherwise, when the resolved logo file exists (its bytes given
by `fileContent`), an inline image with base64 content and extension-derived
MIME type; empty when the file cannot be found. -/
def buildLogoHtml (logo : String) (fileContent : Option (List Nat)) :
    List Char :=
  if logo = "" then []
  else
    match fileContent with
    | none => []
    | some bytes =>
      let ext := (extnameL logo.data).map Char.toLower
      "<img src=\"data:".data ++ logoMime ext ++ ";base64,".data ++
        base64Encode bytes ++ "\" alt=\"Logo\">".data

/-- A concrete entry whose host status is outside the four classified ones. -/
def interruptedEntry : TestEntry := { testId := "t1", name := "t1", status := Status.interrupted }

/-- A concrete failed entry for witnesses. -/
def failedEntry : TestEntry := { testId := "b", name := "b", status := Status.failed }

/-- Concrete annotation `\x7bepic: "E1"\x7d` for the metadata examples. -/
def exampleAnnEpic : AnnotationItem := { type := "epic", description := some "E1" }

/-- Concrete annotation `\x7bparentsuite: "Custom"\x7d`. -/
def exampleAnnParent : AnnotationItem := { type := "parentsuite", description := some "Custom" }

/-- Concrete annotation `\x7bparentsuite: ""\x7d` (empty description). -/
def emptyParentAnn : AnnotationItem := { type := "parentsuite", description := some "" }

/-- The title path of the metadata examples. -/
def examplePath : List String := ["fileA", "suiteB", "subC", "testX"]

/-- A concrete test case for the error-trace counterexample. -/
def passedCase : TestCaseInfo := { id := "t", title := "t", titlePath := ["t"] }

/-- A concrete result: status `passed` but a non-empty error list. -/
def passedWithErrors : TestResultInfo := { status := Status.passed, errors := [{ message := some "boom" }] }

/-- A template containing the style, script and data markers twice each, the
title placeholder twice, and the logo marker once. -/
def dupTemplate : List Char :=
  "<a>".data ++ styleMarker ++ "<b>".data ++ styleMarker ++ "<c>".data ++
    scriptMarker ++ "<d>".data ++ scriptMarker ++ "<e>".data ++ dataMarker ++
    "<f>".data ++ dataMarker ++ "<g>".data ++ titleMarker ++ "<h>".data ++
    titleMarker ++ "<i>".data ++ logoMarker ++ "<j>".data

/-- The render of `dupTemplate`: single-shot markers substituted at their
first occurrence only, every title placeholder substituted. -/
def dupExpected : List Char :=
  "<a>CSS<b>".data ++ styleMarker ++ "<c>JS<d>".data ++ scriptMarker ++
    "<e>DATA<f>".data ++ dataMarker ++ "<g>TTL<h>TTL<i>LOGO<j>".data

/-! ## Theorems -/

theorem recordOutcome_nil (e : TestEntry) : recordOutcome [] e = [e] := rfl

theorem recordOutcome_cons (x : TestEntry) (xs : List TestEntry) (e : TestEntry) :
    recordOutcome (x :: xs) e =
      if x.testId = e.testId then e :: xs else x :: recordOutcome xs e := by
  unfold recordOutcome
  rw [List.findIdx?_cons]
  by_cases h : x.testId = e.testId
  · simp [h]
  · have hb : (x.testId == e.testId) = false := by simp [h]
    simp only [hb, if_neg h, cond_false, if_false]
    cases hfi : xs.findIdx? (fun t => t.testId == e.testId) with
    | none => simp [hfi]
    | some i => simp [hfi, List.set_cons_succ]

theorem recordOutcome_ids (l : List TestEntry) (e : TestEntry) :
    (recordOutcome l e).map (·.testId) =
      if e.testId ∈ l.map (·.testId) then l.map (·.testId)
      else l.map (·.testId) ++ [e.testId] := by
  induction l with
  | nil => simp [recordOutcome_nil]
  | cons x xs ih =>
    rw [recordOutcome_cons]
    by_cases h : x.testId = e.testId
    · simp [h]
    · have hne : e.testId ≠ x.testId := fun hc => h hc.symm
      simp only [if_neg h, List.map_cons, ih, List.mem_cons, hne, false_or]
      by_cases hmem : e.testId ∈ xs.map (·.testId) <;> simp [hmem]

theorem recordOutcome_ids_nodup (l : List TestEntry) (e : TestEntry)
    (h : (l.map (·.testId)).Nodup) :
    ((recordOutcome l e).map (·.testId)).Nodup := by
  rw [recordOutcome_ids]
  by_cases hmem : e.testId ∈ l.map (·.testId)
  · simp [hmem, h]
  · rw [if_neg hmem]
    rw [List.nodup_append]
    refine ⟨h, List.nodup_singleton _, ?_⟩
    intro a ha hb
    simp only [List.mem_singleton] at hb
    subst hb
    exact hmem ha

theorem filter_eq_nil_of_not_mem_ids (l : List TestEntry) (i : String)
    (h : i ∉ l.map (·.testId)) :
    l.filter (fun t => t.testId == i) = [] := by
  induction l with
  | nil => rfl
  | cons x xs ih =>
    simp only [List.map_cons, List.mem_cons, not_or] at h
    have hx : (x.testId == i) = false := by simp; exact fun hc => h.1 hc.symm
    simp [List.filter_cons, hx, ih h.2]

theorem recordOutcome_filter (l : List TestEntry) (e : TestEntry) (i : String)
    (h : (l.map (·.testId)).Nodup) :
    (recordOutcome l e).filter (fun t => t.testId == i) =
      if e.testId = i then [e] else l.filter (fun t => t.testId == i) := by
  induction l with
  | nil =>
    rw [recordOutcome_nil]
    by_cases hei : e.testId = i <;> simp [List.filter_cons, hei]
  | cons x xs ih =>
    rw [recordOutcome_cons]
    simp only [List.map_cons, List.nodup_cons] at h
    by_cases hxe : x.testId = e.testId
    · simp only [if_pos hxe]
      by_cases hei : e.testId = i
      · have hxs : xs.filter (fun t => t.testId == i) = [] := by
          refine filter_eq_nil_of_not_mem_ids xs i ?_
          rw [← hei, ← hxe]; exact h.1
        simp [List.filter_cons, hei, hxs]
      · have hxi : x.testId ≠ i := fun hc => hei (hxe ▸ hc)
        simp [List.filter_cons, hei, hxi]
    · simp only [if_neg hxe]
      by_cases hei : e.testId = i
      · have hxi : (x.testId == i) = false := by
          simp; exact fun hc => hxe (hc.trans hei.symm)
        simp [List.filter_cons, hxi, ih h.2, hei]
      · simp [List.filter_cons, ih h.2, hei]

theorem foldl_recordOutcome_filter (es : List TestEntry) (i : String) :
    ∀ acc : List TestEntry, (acc.map (·.testId)).Nodup →
      (es.foldl recordOutcome acc).filter (fun t => t.testId == i) =
        match (es.filter (fun t => t.testId == i)).getLast? with
        | some e => [e]
        | none => acc.filter (fun t => t.testId == i) := by
  induction es with
  | nil => intro acc _; rfl
  | cons e rest ih =>
    intro acc hacc
    have hacc' := recordOutcome_ids_nodup acc e hacc
    rw [List.foldl_cons, ih (recordOutcome acc e) hacc']
    by_cases hei : e.testId = i
    · have hfe : (e :: rest).filter (fun t => t.testId == i) =
          e :: rest.filter (fun t => t.testId == i) := by
        simp [List.filter_cons, hei]
      rw [hfe]
      cases hrf : rest.filter (fun t => t.testId == i) with
      | nil => simp [hrf, recordOutcome_filter acc e i hacc, hei]
      | cons y ys =>
        rcases hg : (y :: ys).getLast? with _ | z
        · simp at hg
        · simp [hrf, List.getLast?_cons_cons, hg]
    · have hfe : (e :: rest).filter (fun t => t.testId == i) =
          rest.filter (fun t => t.testId == i) := by
        have : (e.testId == i) = false := by simp [hei]
        simp [List.filter_cons, this]
      rw [hfe]
      cases hrf : (rest.filter (fun t => t.testId == i)).getLast? with
      | some y => simp
      | none => simp [recordOutcome_filter acc e i hacc, hei]

theorem foldl_recordOutcome_ids (es : List TestEntry) :
    ∀ acc : List TestEntry,
      (es.foldl recordOutcome acc).map (·.testId) =
        (es.map (·.testId)).foldl
          (fun ids x => if x ∈ ids then ids else ids ++ [x])
          (acc.map (·.testId)) := by
  induction es with
  | nil => intro acc; rfl
  | cons e rest ih =>
    intro acc
    rw [List.foldl_cons, ih (recordOutcome acc e), List.map_cons, List.foldl_cons,
      recordOutcome_ids]

/-- **C1** (retry collapse, `onTestEnd` lines 58-64): after any sequence of
`onTestEnd` calls, (i) the collection holds at most one entry per test id,
(ii) the entries carrying a given id are exactly the last recorded outcome for
that id (so recording O1..On for one id leaves exactly one entry, equal to On),
and (iii) the sequence of ids in the collection is the sequence of first
insertions, so a retried entry keeps the list position of its first
insertion. -/
theorem c1_retry_collapse (es : List TestEntry) (i : String) :
    ((runAll es).map (·.testId)).Nodup ∧
    (runAll es).filter (fun t => t.testId == i) =
      ((es.filter (fun t => t.testId == i)).getLast?).toList ∧
    (runAll es).map (·.testId) = dedupFirst (es.map (·.testId)) := by
  refine ⟨?_, ?_, ?_⟩
  · show ((es.foldl recordOutcome []).map (·.testId)).Nodup
    have h : ∀ acc : List TestEntry, (acc.map (·.testId)).Nodup →
        ((es.foldl recordOutcome acc).map (·.testId)).Nodup := by
      induction es with
      | nil => intro acc hacc; exact hacc
      | cons e rest ih =>
        intro acc hacc
        exact ih (recordOutcome acc e) (recordOutcome_ids_nodup acc e hacc)
    exact h [] (by simp)
  · rw [show runAll es = es.foldl recordOutcome [] from rfl,
      foldl_recordOutcome_filter es i [] (by simp)]
    cases (es.filter (fun t => t.testId == i)).getLast? <;> rfl
  · rw [show runAll es = es.foldl recordOutcome [] from rfl,
      foldl_recordOutcome_ids es []]
    rfl

theorem cmpChar_swap (a b : Char) : cmpChar a b = (cmpChar b a).swap := by
  unfold cmpChar
  exact (Nat.compare_swap b.toNat a.toNat).symm

theorem cmpChar_eq (a b : Char) (h : cmpChar a b = .eq) : a = b := by
  unfold cmpChar at h
  exact Char.ext (UInt32.ext (Nat.compare_eq_eq.mp h))

theorem then_lt_swap (o : Ordering) : o.then .lt = (o.swap.then .gt).swap := by
  cases o <;> rfl

theorem then_lt_ne_eq (o : Ordering) : o.then .lt ≠ .eq := by
  cases o <;> simp [Ordering.then]

theorem then_gt_ne_eq (o : Ordering) : o.then .gt ≠ .eq := by
  cases o <;> simp [Ordering.then]

theorem cmpTok_swap (a b : NameTok) : cmpTok a b = (cmpTok b a).swap := by
  cases a with
  | num da =>
    cases b with
    | num db =>
      simp only [cmpTok]
      exact (Nat.compare_swap (digitsVal db) (digitsVal da)).symm
    | ch y =>
      simp only [cmpTok]
      rw [cmpChar_swap y (da.headD '0')]
      exact then_lt_swap _
  | ch x =>
    cases b with
    | num db =>
      simp only [cmpTok]
      rw [cmpChar_swap x (db.headD '0'), then_lt_swap, Ordering.swap_swap]
    | ch y =>
      simp only [cmpTok]
      exact (cmpChar_swap x y).trans rfl

theorem cmpTok_eq_trans {a b c : NameTok} (h₁ : cmpTok a b = .eq)
    (h₂ : cmpTok b c = .eq) : cmpTok a c = .eq := by
  cases a with
  | num da =>
    cases b with
    | num db =>
      cases c with
      | num dc =>
        simp only [cmpTok] at h₁ h₂ ⊢
        exact Nat.compare_eq_eq.mpr
          ((Nat.compare_eq_eq.mp h₁).trans (Nat.compare_eq_eq.mp h₂))
      | ch z => exact absurd h₂ (then_lt_ne_eq _)
    | ch y => exact absurd h₁ (then_lt_ne_eq _)
  | ch x =>
    cases b with
    | num db => exact absurd h₁ (then_gt_ne_eq _)
    | ch y =>
      cases c with
      | num dc => exact absurd h₂ (then_gt_ne_eq _)
      | ch z =>
        simp only [cmpTok] at h₁ h₂ ⊢
        rw [cmpChar_eq x y h₁]
        exact h₂

theorem cmpToks_swap (xs ys : List NameTok) : cmpToks xs ys = (cmpToks ys xs).swap := by
  induction xs generalizing ys with
  | nil => cases ys <;> rfl
  | cons a as ih =>
    cases ys with
    | nil => rfl
    | cons b bs =>
      simp only [cmpToks]
      rw [cmpTok_swap a b]
      cases h : cmpTok b a <;> simp [Ordering.swap, ih bs]

theorem cmpToks_eq_trans {xs ys zs : List NameTok} (h₁ : cmpToks xs ys = .eq)
    (h₂ : cmpToks ys zs = .eq) : cmpToks xs zs = .eq := by
  induction xs generalizing ys zs with
  | nil =>
    cases ys with
    | nil => exact h₂
    | cons b bs => exact absurd h₁ (by simp [cmpToks])
  | cons a as ih =>
    cases ys with
    | nil => exact absurd h₁ (by simp [cmpToks])
    | cons b bs =>
      cases zs with
      | nil =>
        exact absurd h₂ (by simp [cmpToks])
      | cons c cs =>
        simp only [cmpToks] at h₁ h₂ ⊢
        cases hab : cmpTok a b with
        | eq =>
          rw [hab] at h₁
          cases hbc : cmpTok b c with
          | eq =>
            rw [hbc] at h₂
            rw [cmpTok_eq_trans hab hbc]
            exact ih h₁ h₂
          | lt => rw [hbc] at h₂; exact absurd h₂ (by simp)
          | gt => rw [hbc] at h₂; exact absurd h₂ (by simp)
        | lt => rw [hab] at h₁; exact absurd h₁ (by simp)
        | gt => rw [hab] at h₁; exact absurd h₁ (by simp)

theorem natCmpS_swap (a b : String) : natCmpS a b = (natCmpS b a).swap :=
  cmpToks_swap _ _

theorem natCmpS_eq_trans {a b c : String} (h₁ : natCmpS a b = .eq)
    (h₂ : natCmpS b c = .eq) : natCmpS a c = .eq :=
  cmpToks_eq_trans h₁ h₂

theorem natCmpS_eq_symm {a b : String} (h : natCmpS a b = .eq) :
    natCmpS b a = .eq := by
  rw [natCmpS_swap, h]; rfl

theorem entryLe_of_gt {a b : TestEntry} (h : natCmpS a.name b.name = .gt) :
    natCmpS b.name a.name ≠ .gt := by
  rw [natCmpS_swap, h]; simp [Ordering.swap]

theorem chain'_insertSorted (e : TestEntry) (l : List TestEntry)
    (h : List.Chain' (fun a b => natCmpS a.name b.name ≠ .gt) l) :
    List.Chain' (fun a b => natCmpS a.name b.name ≠ .gt) (insertSorted e l) := by
  induction l with
  | nil => simp [insertSorted]
  | cons x xs ih =>
    rw [List.chain'_cons'] at h
    by_cases hc : natCmpS e.name x.name = .gt
    · simp only [insertSorted, if_pos hc]
      rw [List.chain'_cons']
      refine ⟨?_, ih h.2⟩
      intro y hy
      cases xs with
      | nil =>
        simp [insertSorted] at hy
        subst hy
        exact entryLe_of_gt hc
      | cons z zs =>
        simp only [insertSorted] at hy
        by_cases hz : natCmpS e.name z.name = .gt
        · rw [if_pos hz] at hy
          simp at hy
          subst hy
          exact h.1 z rfl
        · rw [if_neg hz] at hy
          simp at hy
          subst hy
          exact entryLe_of_gt hc
    · simp only [insertSorted, if_neg hc]
      rw [List.chain'_cons']
      refine ⟨?_, List.chain'_cons'.mpr h⟩
      intro y hy
      simp at hy
      subst hy
      exact hc

theorem insertSorted_perm (e : TestEntry) (l : List TestEntry) :
    (insertSorted e l).Perm (e :: l) := by
  induction l with
  | nil => exact List.Perm.refl _
  | cons x xs ih =>
    by_cases hc : natCmpS e.name x.name = .gt
    · simp only [insertSorted, if_pos hc]
      exact (ih.cons x).trans (List.Perm.swap e x xs)
    · simp only [insertSorted, if_neg hc]
      exact List.Perm.refl _

theorem sortTests_perm (l : List TestEntry) : (sortTests l).Perm l := by
  induction l with
  | nil => exact List.Perm.refl _
  | cons x xs ih =>
    exact (insertSorted_perm x (sortTests xs)).trans (ih.cons x)

theorem chain'_sortTests (l : List TestEntry) :
    List.Chain' (fun a b => natCmpS a.name b.name ≠ .gt) (sortTests l) := by
  induction l with
  | nil => simp [sortTests]
  | cons x xs ih => exact chain'_insertSorted x (sortTests xs) ih

theorem ordering_beq_eq_false (o : Ordering) (h : o ≠ Ordering.eq) :
    (o == Ordering.eq) = false := by
  cases o
  · rfl
  · exact absurd rfl h
  · rfl

theorem insertSorted_filter_pos (e : TestEntry) (l : List TestEntry) (s : String)
    (he : natCmpS e.name s = .eq) :
    (insertSorted e l).filter (fun t => natCmpS t.name s == .eq) =
      e :: l.filter (fun t => natCmpS t.name s == .eq) := by
  have hbe : (natCmpS e.name s == Ordering.eq) = true := by rw [he]; rfl
  induction l with
  | nil => simp [insertSorted, List.filter_cons, hbe]
  | cons x xs ih =>
    by_cases hc : natCmpS e.name x.name = .gt
    · have hx : (natCmpS x.name s == Ordering.eq) = false := by
        refine ordering_beq_eq_false _ (fun hxs => ?_)
        exact absurd (natCmpS_eq_trans he (natCmpS_eq_symm hxs)) (by simp [hc])
      simp only [insertSorted, if_pos hc, List.filter_cons, hx]
      rw [ih]
      simp [hx]
    · simp only [insertSorted, if_neg hc, List.filter_cons, hbe]
      simp [hbe]

theorem insertSorted_filter_neg (e : TestEntry) (l : List TestEntry) (s : String)
    (he : natCmpS e.name s ≠ .eq) :
    (insertSorted e l).filter (fun t => natCmpS t.name s == .eq) =
      l.filter (fun t => natCmpS t.name s == .eq) := by
  have hbe : (natCmpS e.name s == Ordering.eq) = false :=
    ordering_beq_eq_false _ he
  induction l with
  | nil => simp [insertSorted, List.filter_cons, hbe]
  | cons x xs ih =>
    by_cases hc : natCmpS e.name x.name = .gt
    · simp only [insertSorted, if_pos hc, List.filter_cons]
      rw [ih]
    · simp only [insertSorted, if_neg hc, List.filter_cons, hbe]
      simp [hbe]

theorem sortTests_filter_eq (l : List TestEntry) (s : String) :
    (sortTests l).filter (fun t => natCmpS t.name s == .eq) =
      l.filter (fun t => natCmpS t.name s == .eq) := by
  induction l with
  | nil => rfl
  | cons x xs ih =>
    show (insertSorted x (sortTests xs)).filter _ = _
    by_cases hx : natCmpS x.name s = .eq
    · have hbx : (natCmpS x.name s == Ordering.eq) = true := by rw [hx]; rfl
      rw [insertSorted_filter_pos x (sortTests xs) s hx, ih]
      simp [List.filter_cons, hbx]
    · have hbx : (natCmpS x.name s == Ordering.eq) = false :=
        ordering_beq_eq_false _ hx
      rw [insertSorted_filter_neg x (sortTests xs) s hx, ih]
      simp [List.filter_cons, hbx]

/-- **C3** (ordering, `onEnd` lines 172-173): `sortTests` (i) permutes the
collection, (ii) orders it so no adjacent pair is strictly descending under
the numeric-aware case-insensitive comparator, (iii) is stable: the entries
collating equal to any given name keep their original relative order, and
(iv) on inputs named `test 10`, `test 2`, `test 1` produces
`test 1`, `test 2`, `test 10`; moreover the comparator is case-insensitive,
collating `"a"` strictly before `"B"`. -/
theorem c3_ordering (l : List TestEntry) (s : String) :
    (sortTests l).Perm l ∧
    List.Chain' (fun a b => natCmpS a.name b.name ≠ .gt) (sortTests l) ∧
    (sortTests l).filter (fun t => natCmpS t.name s == .eq) =
      l.filter (fun t => natCmpS t.name s == .eq) ∧
    (sortTests [sampleEntry "test 10", sampleEntry "test 2",
        sampleEntry "test 1"]).map (·.name) = ["test 1", "test 2", "test 10"] ∧
    natCmpS "a" "B" = .lt :=
  ⟨sortTests_perm l, chain'_sortTests l, sortTests_filter_eq l s,
    by decide, by decide⟩

theorem status_beq_iff (a b : Status) : (a == b) = true ↔ a = b := by
  cases a <;> cases b <;> decide

theorem counts_sum (l : List TestEntry)
    (h : ∀ t ∈ l, t.status ≠ Status.interrupted) :
    (l.filter (fun t => t.status == Status.passed)).length +
      (l.filter (fun t => t.status == Status.failed ||
        t.status == Status.timedOut)).length +
      (l.filter (fun t => t.status == Status.skipped)).length = l.length := by
  induction l with
  | nil => rfl
  | cons x xs ih =>
    have hx := h x (List.mem_cons_self x xs)
    have hxs := ih (fun t ht => h t (List.mem_cons_of_mem x ht))
    cases hst : x.status with
    | interrupted => exact absurd hst hx
    | passed =>
      simp [List.filter_cons, hst, status_beq_iff]
      omega
    | failed =>
      simp [List.filter_cons, hst, status_beq_iff]
      omega
    | timedOut =>
      simp [List.filter_cons, hst, status_beq_iff]
      omega
    | skipped =>
      simp [List.filter_cons, hst, status_beq_iff]
      omega

theorem sortTests_filter_length (l : List TestEntry) (p : TestEntry → Bool) :
    ((sortTests l).filter p).length = (l.filter p).length :=
  ((sortTests_perm l).filter p).length_eq

/-- **C2 counterexample**: for a run containing one record concluded with the
host status `interrupted` (outside the four statuses that the spec's counts
classify), the finalized summary has `passed + failed + skipped = 0` while
`totalTests = 1`, so the claimed equality fails. -/
theorem c2_count_consistency_counterexample :
    (mkReportData [interruptedEntry] 0 [] "ts").passed +
      (mkReportData [interruptedEntry] 0 [] "ts").failed +
      (mkReportData [interruptedEntry] 0 [] "ts").skipped = 0 ∧
    (mkReportData [interruptedEntry] 0 [] "ts").totalTests = 1 := by
  constructor <;> rfl

/-- **C2** (count consistency, `onEnd` lines 175-184), amended: `failed`
counts exactly the records whose final status is `failed` or `timedOut`
(`passed` exactly `passed`, `skipped` exactly `skipped`, `totalTests` the
number of collected records) — unconditionally — and *provided no record
carries a status outside the four classified ones* (Playwright's
`interrupted`, the spec's "unknown"),
`passed + failed + skipped = totalTests`. -/
theorem c2_count_consistency (tests : List TestEntry) (duration : Nat)
    (comments : List (String × String)) (timestamp : String) :
    (mkReportData tests duration comments timestamp).totalTests = tests.length ∧
    (mkReportData tests duration comments timestamp).passed =
      (tests.filter (fun t => t.status == Status.passed)).length ∧
    (mkReportData tests duration comments timestamp).failed =
      (tests.filter (fun t => t.status == Status.failed ||
        t.status == Status.timedOut)).length ∧
    (mkReportData tests duration comments timestamp).skipped =
      (tests.filter (fun t => t.status == Status.skipped)).length ∧
    ((∀ t ∈ tests, t.status ≠ Status.interrupted) →
      (mkReportData tests duration comments timestamp).passed +
        (mkReportData tests duration comments timestamp).failed +
        (mkReportData tests duration comments timestamp).skipped =
        (mkReportData tests duration comments timestamp).totalTests) := by
  have hlen : (mkReportData tests duration comments timestamp).totalTests =
      tests.length := (sortTests_perm tests).length_eq
  have hp : (mkReportData tests duration comments timestamp).passed =
      (tests.filter (fun t => t.status == Status.passed)).length :=
    sortTests_filter_length tests _
  have hf : (mkReportData tests duration comments timestamp).failed =
      (tests.filter (fun t => t.status == Status.failed ||
        t.status == Status.timedOut)).length :=
    sortTests_filter_length tests _
  have hs : (mkReportData tests duration comments timestamp).skipped =
      (tests.filter (fun t => t.status == Status.skipped)).length :=
    sortTests_filter_length tests _
  refine ⟨hlen, hp, hf, hs, fun h => ?_⟩
  rw [hlen, hp, hf, hs]
  exact counts_sum tests h

/-- Witness for the amended C2 at a concrete two-test run, discharging the
no-`interrupted` hypothesis of the sum conjunct. -/
theorem c2_count_consistency_witness :
    (∀ t ∈ [sampleEntry "a", failedEntry], t.status ≠ Status.interrupted) ∧
    ((mkReportData [sampleEntry "a", failedEntry] 7 [] "ts").passed +
      (mkReportData [sampleEntry "a", failedEntry] 7 [] "ts").failed +
      (mkReportData [sampleEntry "a", failedEntry] 7 [] "ts").skipped =
      (mkReportData [sampleEntry "a", failedEntry] 7 [] "ts").totalTests) :=
  ⟨by decide,
    (c2_count_consistency [sampleEntry "a", failedEntry] 7 [] "ts").2.2.2.2
      (by decide)⟩

theorem applyAnn_kind_epic (m : TestMetadata) (a : AnnotationItem)
    (hk : toLowerS a.type = "epic") :
    applyAnn m a = { m with epic := some (valueOf a) } := by
  simp [applyAnn, hk]

theorem applyAnn_kind_feature (m : TestMetadata) (a : AnnotationItem)
    (hk : toLowerS a.type = "feature") :
    applyAnn m a = { m with feature := some (valueOf a) } := by
  simp [applyAnn, hk]

theorem applyAnn_kind_story (m : TestMetadata) (a : AnnotationItem)
    (hk : toLowerS a.type = "story") :
    applyAnn m a = { m with story := some (valueOf a) } := by
  simp [applyAnn, hk]

theorem applyAnn_kind_suite (m : TestMetadata) (a : AnnotationItem)
    (hk : toLowerS a.type = "suite") :
    applyAnn m a = { m with suite := some (valueOf a) } := by
  simp [applyAnn, hk]

theorem applyAnn_kind_subsuite (m : TestMetadata) (a : AnnotationItem)
    (hk : toLowerS a.type = "subsuite") :
    applyAnn m a = { m with subSuite := some (valueOf a) } := by
  simp [applyAnn, hk]

theorem applyAnn_kind_parentsuite (m : TestMetadata) (a : AnnotationItem)
    (hk : toLowerS a.type = "parentsuite") :
    applyAnn m a = { m with parentSuite := some (valueOf a) } := by
  simp [applyAnn, hk]

theorem applyAnn_kind_severity (m : TestMetadata) (a : AnnotationItem)
    (hk : toLowerS a.type = "severity") :
    applyAnn m a = { m with severity := some (valueOf a) } := by
  simp [applyAnn, hk]

theorem applyAnn_kind_owner (m : TestMetadata) (a : AnnotationItem)
    (hk : toLowerS a.type = "owner") :
    applyAnn m a = { m with owner := some (valueOf a) } := by
  simp [applyAnn, hk]

theorem applyAnn_kind_tag (m : TestMetadata) (a : AnnotationItem)
    (hk : toLowerS a.type = "tag") :
    applyAnn m a = { m with tags := some (m.tags.getD [] ++ [valueOf a]) } := by
  simp [applyAnn, hk]

theorem applyAnn_kind_description (m : TestMetadata) (a : AnnotationItem)
    (hk : toLowerS a.type = "description") :
    applyAnn m a = { m with description := some (valueOf a) } := by
  simp [applyAnn, hk]

theorem applyAnn_other (m : TestMetadata) (a : AnnotationItem)
    (hk : toLowerS a.type ∉ recognizedKinds) :
    applyAnn m a =
      if valueOf a ≠ "" then
        { m with parameters := some (upsert (m.parameters.getD []) (toLowerS a.type) (valueOf a)) }
      else m := by
  simp only [recognizedKinds, List.mem_cons, List.not_mem_nil, or_false,
    not_or] at hk
  obtain ⟨h1, h2, h3, h4, h5, h6, h7, h8, h9, h10⟩ := hk
  simp [applyAnn, h1, h2, h3, h4, h5, h6, h7, h8, h9, h10]

theorem applyAnn_epic_step (m : TestMetadata) (a : AnnotationItem) :
    (applyAnn m a).epic =
      if toLowerS a.type == "epic" then some (valueOf a) else m.epic := by
  by_cases hk : toLowerS a.type = "epic"
  · rw [applyAnn_kind_epic m a hk]
    simp [hk]
  · have hb : (toLowerS a.type == "epic") = false := by simp [hk]
    simp only [hb, Bool.false_eq_true, if_false]
    by_cases hr : toLowerS a.type ∈ recognizedKinds
    · simp only [recognizedKinds, List.mem_cons, List.not_mem_nil, or_false] at hr
      rcases hr with h | h | h | h | h | h | h | h | h | h
      · exact absurd h hk
      · rw [applyAnn_kind_feature m a h]
      · rw [applyAnn_kind_story m a h]
      · rw [applyAnn_kind_suite m a h]
      · rw [applyAnn_kind_subsuite m a h]
      · rw [applyAnn_kind_parentsuite m a h]
      · rw [applyAnn_kind_severity m a h]
      · rw [applyAnn_kind_owner m a h]
      · rw [applyAnn_kind_tag m a h]
      · rw [applyAnn_kind_description m a h]
    · rw [applyAnn_other m a hr]
      by_cases hv : valueOf a ≠ "" <;> simp [hv]

theorem applyAnn_feature_step (m : TestMetadata) (a : AnnotationItem) :
    (applyAnn m a).feature =
      if toLowerS a.type == "feature" then some (valueOf a) else m.feature := by
  by_cases hk : toLowerS a.type = "feature"
  · rw [applyAnn_kind_feature m a hk]
    simp [hk]
  · have hb : (toLowerS a.type == "feature") = false := by simp [hk]
    simp only [hb, Bool.false_eq_true, if_false]
    by_cases hr : toLowerS a.type ∈ recognizedKinds
    · simp only [recognizedKinds, List.mem_cons, List.not_mem_nil, or_false] at hr
      rcases hr with h | h | h | h | h | h | h | h | h | h
      · rw [applyAnn_kind_epic m a h]
      · exact absurd h hk
      · rw [applyAnn_kind_story m a h]
      · rw [applyAnn_kind_suite m a h]
      · rw [applyAnn_kind_subsuite m a h]
      · rw [applyAnn_kind_parentsuite m a h]
      · rw [applyAnn_kind_severity m a h]
      · rw [applyAnn_kind_owner m a h]
      · rw [applyAnn_kind_tag m a h]
      · rw [applyAnn_kind_description m a h]
    · rw [applyAnn_other m a hr]
      by_cases hv : valueOf a ≠ "" <;> simp [hv]

theorem applyAnn_story_step (m : TestMetadata) (a : AnnotationItem) :
    (applyAnn m a).story =
      if toLowerS a.type == "story" then some (valueOf a) else m.story := by
  by_cases hk : toLowerS a.type = "story"
  · rw [applyAnn_kind_story m a hk]
    simp [hk]
  · have hb : (toLowerS a.type == "story") = false := by simp [hk]
    simp only [hb, Bool.false_eq_true, if_false]
    by_cases hr : toLowerS a.type ∈ recognizedKinds
    · simp only [recognizedKinds, List.mem_cons, List.not_mem_nil, or_false] at hr
      rcases hr with h | h | h | h | h | h | h | h | h | h
      · rw [applyAnn_kind_epic m a h]
      · rw [applyAnn_kind_feature m a h]
      · exact absurd h hk
      · rw [applyAnn_kind_suite m a h]
      · rw [applyAnn_kind_subsuite m a h]
      · rw [applyAnn_kind_parentsuite m a h]
      · rw [applyAnn_kind_severity m a h]
      · rw [applyAnn_kind_owner m a h]
      · rw [applyAnn_kind_tag m a h]
      · rw [applyAnn_kind_description m a h]
    · rw [applyAnn_other m a hr]
      by_cases hv : valueOf a ≠ "" <;> simp [hv]

theorem applyAnn_suite_step (m : TestMetadata) (a : AnnotationItem) :
    (applyAnn m a).suite =
      if toLowerS a.type == "suite" then some (valueOf a) else m.suite := by
  by_cases hk : toLowerS a.type = "suite"
  · rw [applyAnn_kind_suite m a hk]
    simp [hk]
  · have hb : (toLowerS a.type == "suite") = false := by simp [hk]
    simp only [hb, Bool.false_eq_true, if_false]
    by_cases hr : toLowerS a.type ∈ recognizedKinds
    · simp only [recognizedKinds, List.mem_cons, List.not_mem_nil, or_false] at hr
      rcases hr with h | h | h | h | h | h | h | h | h | h
      · rw [applyAnn_kind_epic m a h]
      · rw [applyAnn_kind_feature m a h]
      · rw [applyAnn_kind_story m a h]
      · exact absurd h hk
      · rw [applyAnn_kind_subsuite m a h]
      · rw [applyAnn_kind_parentsuite m a h]
      · rw [applyAnn_kind_severity m a h]
      · rw [applyAnn_kind_owner m a h]
      · rw [applyAnn_kind_tag m a h]
      · rw [applyAnn_kind_description m a h]
    · rw [applyAnn_other m a hr]
      by_cases hv : valueOf a ≠ "" <;> simp [hv]

theorem applyAnn_subSuite_step (m : TestMetadata) (a : AnnotationItem) :
    (applyAnn m a).subSuite =
      if toLowerS a.type == "subsuite" then some (valueOf a) else m.subSuite := by
  by_cases hk : toLowerS a.type = "subsuite"
  · rw [applyAnn_kind_subsuite m a hk]
    simp [hk]
  · have hb : (toLowerS a.type == "subsuite") = false := by simp [hk]
    simp only [hb, Bool.false_eq_true, if_false]
    by_cases hr : toLowerS a.type ∈ recognizedKinds
    · simp only [recognizedKinds, List.mem_cons, List.not_mem_nil, or_false] at hr
      rcases hr with h | h | h | h | h | h | h | h | h | h
      · rw [applyAnn_kind_epic m a h]
      · rw [applyAnn_kind_feature m a h]
      · rw [applyAnn_kind_story m a h]
      · rw [applyAnn_kind_suite m a h]
      · exact absurd h hk
      · rw [applyAnn_kind_parentsuite m a h]
      · rw [applyAnn_kind_severity m a h]
      · rw [applyAnn_kind_owner m a h]
      · rw [applyAnn_kind_tag m a h]
      · rw [applyAnn_kind_description m a h]
    · rw [applyAnn_other m a hr]
      by_cases hv : valueOf a ≠ "" <;> simp [hv]

theorem applyAnn_parentSuite_step (m : TestMetadata) (a : AnnotationItem) :
    (applyAnn m a).parentSuite =
      if toLowerS a.type == "parentsuite" then some (valueOf a) else m.parentSuite := by
  by_cases hk : toLowerS a.type = "parentsuite"
  · rw [applyAnn_kind_parentsuite m a hk]
    simp [hk]
  · have hb : (toLowerS a.type == "parentsuite") = false := by simp [hk]
    simp only [hb, Bool.false_eq_true, if_false]
    by_cases hr : toLowerS a.type ∈ recognizedKinds
    · simp only [recognizedKinds, List.mem_cons, List.not_mem_nil, or_false] at hr
      rcases hr with h | h | h | h | h | h | h | h | h | h
      · rw [applyAnn_kind_epic m a h]
      · rw [applyAnn_kind_feature m a h]
      · rw [applyAnn_kind_story m a h]
      · rw [applyAnn_kind_suite m a h]
      · rw [applyAnn_kind_subsuite m a h]
      · exact absurd h hk
      · rw [applyAnn_kind_severity m a h]
      · rw [applyAnn_kind_owner m a h]
      · rw [applyAnn_kind_tag m a h]
      · rw [applyAnn_kind_description m a h]
    · rw [applyAnn_other m a hr]
      by_cases hv : valueOf a ≠ "" <;> simp [hv]

theorem applyAnn_severity_step (m : TestMetadata) (a : AnnotationItem) :
    (applyAnn m a).severity =
      if toLowerS a.type == "severity" then some (valueOf a) else m.severity := by
  by_cases hk : toLowerS a.type = "severity"
  · rw [applyAnn_kind_severity m a hk]
    simp [hk]
  · have hb : (toLowerS a.type == "severity") = false := by simp [hk]
    simp only [hb, Bool.false_eq_true, if_false]
    by_cases hr : toLowerS a.type ∈ recognizedKinds
    · simp only [recognizedKinds, List.mem_cons, List.not_mem_nil, or_false] at hr
      rcases hr with h | h | h | h | h | h | h | h | h | h
      · rw [applyAnn_kind_epic m a h]
      · rw [applyAnn_kind_feature m a h]
      · rw [applyAnn_kind_story m a h]
      · rw [applyAnn_kind_suite m a h]
      · rw [applyAnn_kind_subsuite m a h]
      · rw [applyAnn_kind_parentsuite m a h]
      · exact absurd h hk
      · rw [applyAnn_kind_owner m a h]
      · rw [applyAnn_kind_tag m a h]
      · rw [applyAnn_kind_description m a h]
    · rw [applyAnn_other m a hr]
      by_cases hv : valueOf a ≠ "" <;> simp [hv]

theorem applyAnn_owner_step (m : TestMetadata) (a : AnnotationItem) :
    (applyAnn m a).owner =
      if toLowerS a.type == "owner" then some (valueOf a) else m.owner := by
  by_cases hk : toLowerS a.type = "owner"
  · rw [applyAnn_kind_owner m a hk]
    simp [hk]
  · have hb : (toLowerS a.type == "owner") = false := by simp [hk]
    simp only [hb, Bool.false_eq_true, if_false]
    by_cases hr : toLowerS a.type ∈ recognizedKinds
    · simp only [recognizedKinds, List.mem_cons, List.not_mem_nil, or_false] at hr
      rcases hr with h | h | h | h | h | h | h | h | h | h
      · rw [applyAnn_kind_epic m a h]
      · rw [applyAnn_kind_feature m a h]
      · rw [applyAnn_kind_story m a h]
      · rw [applyAnn_kind_suite m a h]
      · rw [applyAnn_kind_subsuite m a h]
      · rw [applyAnn_kind_parentsuite m a h]
      · rw [applyAnn_kind_severity m a h]
      · exact absurd h hk
      · rw [applyAnn_kind_tag m a h]
      · rw [applyAnn_kind_description m a h]
    · rw [applyAnn_other m a hr]
      by_cases hv : valueOf a ≠ "" <;> simp [hv]

theorem applyAnn_description_step (m : TestMetadata) (a : AnnotationItem) :
    (applyAnn m a).description =
      if toLowerS a.type == "description" then some (valueOf a) else m.description := by
  by_cases hk : toLowerS a.type = "description"
  · rw [applyAnn_kind_description m a hk]
    simp [hk]
  · have hb : (toLowerS a.type == "description") = false := by simp [hk]
    simp only [hb, Bool.false_eq_true, if_false]
    by_cases hr : toLowerS a.type ∈ recognizedKinds
    · simp only [recognizedKinds, List.mem_cons, List.not_mem_nil, or_false] at hr
      rcases hr with h | h | h | h | h | h | h | h | h | h
      · rw [applyAnn_kind_epic m a h]
      · rw [applyAnn_kind_feature m a h]
      · rw [applyAnn_kind_story m a h]
      · rw [applyAnn_kind_suite m a h]
      · rw [applyAnn_kind_subsuite m a h]
      · rw [applyAnn_kind_parentsuite m a h]
      · rw [applyAnn_kind_severity m a h]
      · rw [applyAnn_kind_owner m a h]
      · rw [applyAnn_kind_tag m a h]
      · exact absurd h hk
    · rw [applyAnn_other m a hr]
      by_cases hv : valueOf a ≠ "" <;> simp [hv]

theorem applyAnn_tags_step (m : TestMetadata) (a : AnnotationItem) :
    (applyAnn m a).tags.getD [] =
      if toLowerS a.type == "tag" then m.tags.getD [] ++ [valueOf a]
      else m.tags.getD [] := by
  by_cases hk : toLowerS a.type = "tag"
  · rw [applyAnn_kind_tag m a hk]
    simp [hk]
  · have hb : (toLowerS a.type == "tag") = false := by simp [hk]
    simp only [hb, Bool.false_eq_true, if_false]
    by_cases hr : toLowerS a.type ∈ recognizedKinds
    · simp only [recognizedKinds, List.mem_cons, List.not_mem_nil, or_false] at hr
      rcases hr with h | h | h | h | h | h | h | h | h | h
      · rw [applyAnn_kind_epic m a h]
      · rw [applyAnn_kind_feature m a h]
      · rw [applyAnn_kind_story m a h]
      · rw [applyAnn_kind_suite m a h]
      · rw [applyAnn_kind_subsuite m a h]
      · rw [applyAnn_kind_parentsuite m a h]
      · rw [applyAnn_kind_severity m a h]
      · rw [applyAnn_kind_owner m a h]
      · exact absurd h hk
      · rw [applyAnn_kind_description m a h]
    · rw [applyAnn_other m a hr]
      by_cases hv : valueOf a ≠ "" <;> simp [hv]

theorem lookupKV_upsert (l : List (String × String)) (q v k : String) :
    lookupKV (upsert l q v) k = if q = k then some v else lookupKV l k := by
  induction l with
  | nil =>
    simp only [upsert, lookupKV]
  | cons kv rest ih =>
    obtain ⟨k0, v0⟩ := kv
    simp only [upsert]
    by_cases h : k0 = q
    · rw [if_pos h]
      simp only [lookupKV]
      by_cases hk : q = k
      · simp [hk]
      · have h0 : k0 ≠ k := fun hc => hk (h.symm.trans hc)
        simp [hk, h0]
    · rw [if_neg h]
      simp only [lookupKV, ih]
      by_cases h0 : k0 = k
      · have hk : q ≠ k := fun hc => h (h0.trans hc.symm)
        simp [h0, hk]
      · simp [h0]

theorem applyAnn_params_step (m : TestMetadata) (a : AnnotationItem)
    (k : String) :
    lookupKV ((applyAnn m a).parameters.getD []) k =
      if toLowerS a.type == k && !(decide (toLowerS a.type ∈ recognizedKinds)) &&
          valueOf a != "" then
        some (valueOf a)
      else lookupKV (m.parameters.getD []) k := by
  by_cases hr : toLowerS a.type ∈ recognizedKinds
  · have hb : (toLowerS a.type == k && !(decide (toLowerS a.type ∈ recognizedKinds)) &&
        valueOf a != "") = false := by simp [hr]
    simp only [hb, Bool.false_eq_true, if_false]
    have hr2 := hr
    simp only [recognizedKinds, List.mem_cons, List.not_mem_nil, or_false] at hr2
    rcases hr2 with h | h | h | h | h | h | h | h | h | h
    · rw [applyAnn_kind_epic m a h]
    · rw [applyAnn_kind_feature m a h]
    · rw [applyAnn_kind_story m a h]
    · rw [applyAnn_kind_suite m a h]
    · rw [applyAnn_kind_subsuite m a h]
    · rw [applyAnn_kind_parentsuite m a h]
    · rw [applyAnn_kind_severity m a h]
    · rw [applyAnn_kind_owner m a h]
    · rw [applyAnn_kind_tag m a h]
    · rw [applyAnn_kind_description m a h]
  · rw [applyAnn_other m a hr]
    have hd : decide (toLowerS a.type ∈ recognizedKinds) = false := by simp [hr]
    by_cases hv : valueOf a = ""
    · have hb : (toLowerS a.type == k && !(decide (toLowerS a.type ∈ recognizedKinds)) &&
          valueOf a != "") = false := by simp [hv]
      simp [hv, hb]
    · rw [if_pos hv]
      show lookupKV (upsert (m.parameters.getD []) (toLowerS a.type) (valueOf a)) k = _
      rw [lookupKV_upsert]
      by_cases htk : toLowerS a.type = k
      · rw [htk] at hd
        simp [htk, hd, hv]
      · have hbk : (toLowerS a.type == k) = false := by simp [htk]
        simp [htk, hbk]

theorem lastWins_foldl (g : TestMetadata → Option String)
    (p : AnnotationItem → Bool)
    (step : ∀ m a, g (applyAnn m a) = if p a then some (valueOf a) else g m)
    (anns : List AnnotationItem) :
    ∀ m : TestMetadata,
      g (anns.foldl applyAnn m) =
        match anns.reverse.find? p with
        | some a => some (valueOf a)
        | none => g m := by
  induction anns with
  | nil => intro m; rfl
  | cons a rest ih =>
    intro m
    rw [List.foldl_cons, ih (applyAnn m a), List.reverse_cons, List.find?_append]
    cases hfr : rest.reverse.find? p with
    | some x => simp
    | none =>
      simp only [Option.none_or]
      rw [step m a]
      cases hpa : p a <;> simp [List.find?, hpa]

theorem annPhase_getter (g : TestMetadata → Option String)
    (p : AnnotationItem → Bool) (h : g {} = none)
    (step : ∀ m a, g (applyAnn m a) = if p a then some (valueOf a) else g m)
    (anns : List AnnotationItem) :
    g (annPhase anns) = (anns.reverse.find? p).map valueOf := by
  have hm := lastWins_foldl g p step anns {}
  show g (anns.foldl applyAnn {}) = _
  rw [hm]
  cases hf : anns.reverse.find? p <;> simp [h]

theorem tags_foldl (anns : List AnnotationItem) :
    ∀ m : TestMetadata,
      (anns.foldl applyAnn m).tags.getD [] =
        m.tags.getD [] ++
          (anns.filter (fun a => toLowerS a.type == "tag")).map valueOf := by
  induction anns with
  | nil => intro m; simp
  | cons a rest ih =>
    intro m
    rw [List.foldl_cons, ih (applyAnn m a), applyAnn_tags_step]
    cases hpa : (toLowerS a.type == "tag") <;>
      simp [List.filter_cons, hpa, List.append_assoc]

/-- **C4** (annotation dispatch, `extractMetadata` lines 92-135): over any
annotation list, (i) each single-valued field equals the value of the *last*
annotation whose lower-cased kind matches it (absent if none), (ii) the tags
sequence is the values of the `tag` annotations in encounter order with no
de-duplication, and (iii) a `parameters` key holds the value of the last
annotation with that lower-cased unrecognized kind and a non-empty value
(empty-valued unrecognized annotations are dropped; recognized kinds are
never stored in `parameters`). -/
theorem c4_annotation_dispatch (anns : List AnnotationItem) (k : String) :
    (annPhase anns).epic =
      (anns.reverse.find? (fun a => toLowerS a.type == "epic")).map valueOf ∧
    (annPhase anns).feature =
      (anns.reverse.find? (fun a => toLowerS a.type == "feature")).map valueOf ∧
    (annPhase anns).story =
      (anns.reverse.find? (fun a => toLowerS a.type == "story")).map valueOf ∧
    (annPhase anns).suite =
      (anns.reverse.find? (fun a => toLowerS a.type == "suite")).map valueOf ∧
    (annPhase anns).subSuite =
      (anns.reverse.find? (fun a => toLowerS a.type == "subsuite")).map valueOf ∧
    (annPhase anns).parentSuite =
      (anns.reverse.find? (fun a => toLowerS a.type == "parentsuite")).map valueOf ∧
    (annPhase anns).severity =
      (anns.reverse.find? (fun a => toLowerS a.type == "severity")).map valueOf ∧
    (annPhase anns).owner =
      (anns.reverse.find? (fun a => toLowerS a.type == "owner")).map valueOf ∧
    (annPhase anns).description =
      (anns.reverse.find? (fun a => toLowerS a.type == "description")).map valueOf ∧
    (annPhase anns).tags.getD [] =
      (anns.filter (fun a => toLowerS a.type == "tag")).map valueOf ∧
    lookupKV ((annPhase anns).parameters.getD []) k =
      (anns.reverse.find? (fun a => toLowerS a.type == k &&
        !(decide (toLowerS a.type ∈ recognizedKinds)) &&
        valueOf a != "")).map valueOf := by
  refine ⟨?_, ?_, ?_, ?_, ?_, ?_, ?_, ?_, ?_, ?_, ?_⟩
  · exact annPhase_getter (fun m => m.epic) _ rfl applyAnn_epic_step anns
  · exact annPhase_getter (fun m => m.feature) _ rfl applyAnn_feature_step anns
  · exact annPhase_getter (fun m => m.story) _ rfl applyAnn_story_step anns
  · exact annPhase_getter (fun m => m.suite) _ rfl applyAnn_suite_step anns
  · exact annPhase_getter (fun m => m.subSuite) _ rfl applyAnn_subSuite_step anns
  · exact annPhase_getter (fun m => m.parentSuite) _ rfl
      applyAnn_parentSuite_step anns
  · exact annPhase_getter (fun m => m.severity) _ rfl applyAnn_severity_step anns
  · exact annPhase_getter (fun m => m.owner) _ rfl applyAnn_owner_step anns
  · exact annPhase_getter (fun m => m.description) _ rfl
      applyAnn_description_step anns
  · have h := tags_foldl anns {}
    simpa using h
  · exact annPhase_getter (fun m => lookupKV (m.parameters.getD []) k) _ rfl
      (fun m a => applyAnn_params_step m a k) anns

theorem backFill_not_long (m : TestMetadata) (tp : List String)
    (h : ¬ 1 < tp.length) : backFill m tp = m := by
  rw [backFill, if_neg h]

theorem backFill_parentSuite (m : TestMetadata) (tp : List String) :
    (backFill m tp).parentSuite =
      if 1 < tp.length ∧ isSet m.parentSuite = false then some (tp[0]?.getD "")
      else m.parentSuite := by
  simp only [backFill]
  split_ifs <;> simp_all <;> omega

theorem backFill_suite (m : TestMetadata) (tp : List String) :
    (backFill m tp).suite =
      if 2 < tp.length ∧ isSet m.suite = false then some (tp[1]?.getD "")
      else m.suite := by
  simp only [backFill]
  split_ifs <;> simp_all <;> omega

theorem backFill_subSuite (m : TestMetadata) (tp : List String) :
    (backFill m tp).subSuite =
      if 3 < tp.length ∧ isSet m.subSuite = false then some (tp[2]?.getD "")
      else m.subSuite := by
  simp only [backFill]
  split_ifs <;> simp_all <;> omega

theorem backFill_epic (m : TestMetadata) (tp : List String) :
    (backFill m tp).epic = m.epic := by
  simp only [backFill]
  split_ifs <;> rfl

/-- **C5** (hierarchy back-fill with annotation precedence, `extractMetadata`
lines 137-150): the back-fill runs only when the title path has more than one
segment; `parentSuite` / `suite` / `subSuite` are filled from the first three
segments exactly when unset (in the JS-truthiness sense) and the path is long
enough; a truthy value from an explicit annotation is never overwritten and
non-hierarchy fields are untouched.  Concretely, `[epic:"E1"]` with path
`[fileA, suiteB, subC, testX]` yields the back-filled hierarchy, and an
explicit `parentsuite:"Custom"` annotation wins over the back-fill. -/
theorem c5_hierarchy_backfill (anns : List AnnotationItem) (tp : List String) :
    (tp.length ≤ 1 → extractMeta anns tp = annPhase anns) ∧
    ((extractMeta anns tp).parentSuite =
      if 1 < tp.length ∧ isSet (annPhase anns).parentSuite = false
      then some (tp[0]?.getD "") else (annPhase anns).parentSuite) ∧
    ((extractMeta anns tp).suite =
      if 2 < tp.length ∧ isSet (annPhase anns).suite = false
      then some (tp[1]?.getD "") else (annPhase anns).suite) ∧
    ((extractMeta anns tp).subSuite =
      if 3 < tp.length ∧ isSet (annPhase anns).subSuite = false
      then some (tp[2]?.getD "") else (annPhase anns).subSuite) ∧
    (isSet (annPhase anns).parentSuite = true →
      (extractMeta anns tp).parentSuite = (annPhase anns).parentSuite) ∧
    (isSet (annPhase anns).suite = true →
      (extractMeta anns tp).suite = (annPhase anns).suite) ∧
    (isSet (annPhase anns).subSuite = true →
      (extractMeta anns tp).subSuite = (annPhase anns).subSuite) ∧
    (extractMeta anns tp).epic = (annPhase anns).epic ∧
    ((extractMeta [exampleAnnEpic] examplePath).epic = some "E1" ∧
      (extractMeta [exampleAnnEpic] examplePath).parentSuite = some "fileA" ∧
      (extractMeta [exampleAnnEpic] examplePath).suite = some "suiteB" ∧
      (extractMeta [exampleAnnEpic] examplePath).subSuite = some "subC") ∧
    (extractMeta [exampleAnnEpic, exampleAnnParent] examplePath).parentSuite =
      some "Custom" := by
  refine ⟨?_, backFill_parentSuite _ _, backFill_suite _ _,
    backFill_subSuite _ _, ?_, ?_, ?_, backFill_epic _ _, by decide, by decide⟩
  · intro h
    exact backFill_not_long _ _ (by omega)
  · intro hs
    show (backFill (annPhase anns) tp).parentSuite = _
    rw [backFill_parentSuite]
    have hn : ¬(1 < tp.length ∧ isSet (annPhase anns).parentSuite = false) := by
      rintro ⟨-, hc⟩
      rw [hs] at hc
      simp at hc
    rw [if_neg hn]
  · intro hs
    show (backFill (annPhase anns) tp).suite = _
    rw [backFill_suite]
    have hn : ¬(2 < tp.length ∧ isSet (annPhase anns).suite = false) := by
      rintro ⟨-, hc⟩
      rw [hs] at hc
      simp at hc
    rw [if_neg hn]
  · intro hs
    show (backFill (annPhase anns) tp).subSuite = _
    rw [backFill_subSuite]
    have hn : ¬(3 < tp.length ∧ isSet (annPhase anns).subSuite = false) := by
      rintro ⟨-, hc⟩
      rw [hs] at hc
      simp at hc
    rw [if_neg hn]

/-- Witness for C5 at a concrete input: an explicit truthy `parentsuite`
annotation survives the back-fill, and a short path disables it. -/
theorem c5_hierarchy_backfill_witness :
    (isSet (annPhase [exampleAnnParent]).parentSuite = true ∧
      (extractMeta [exampleAnnParent] examplePath).parentSuite =
        (annPhase [exampleAnnParent]).parentSuite) ∧
    (([""] : List String).length ≤ 1 ∧
      extractMeta [exampleAnnEpic] [""] = annPhase [exampleAnnEpic]) :=
  ⟨⟨by decide,
    (c5_hierarchy_backfill [exampleAnnParent] examplePath).2.2.2.2.1
      (by decide)⟩,
   ⟨by decide,
    (c5_hierarchy_backfill [exampleAnnEpic] [""]).1 (by decide)⟩⟩

/-- **C10** (implicit: empty-valued recognized annotations): an annotation of
a recognized single-valued kind whose description is absent or empty sets the
field to the *empty string* (not `undefined`), and such an empty string is
falsy, so the hierarchy back-fill may later replace it — concretely, a
`parentsuite` annotation with empty description is overwritten by the first
title-path segment. -/
theorem c10_empty_value_set (m : TestMetadata) (a : AnnotationItem)
    (hd : a.description = none ∨ a.description = some "") :
    (toLowerS a.type = "epic" → (applyAnn m a).epic = some "") ∧
    (toLowerS a.type = "feature" → (applyAnn m a).feature = some "") ∧
    (toLowerS a.type = "story" → (applyAnn m a).story = some "") ∧
    (toLowerS a.type = "suite" → (applyAnn m a).suite = some "") ∧
    (toLowerS a.type = "subsuite" → (applyAnn m a).subSuite = some "") ∧
    (toLowerS a.type = "parentsuite" → (applyAnn m a).parentSuite = some "") ∧
    (toLowerS a.type = "severity" → (applyAnn m a).severity = some "") ∧
    (toLowerS a.type = "owner" → (applyAnn m a).owner = some "") ∧
    (toLowerS a.type = "description" → (applyAnn m a).description = some "") ∧
    isSet (some "") = false ∧
    (extractMeta [emptyParentAnn] ["fileA", "suiteB"]).parentSuite =
      some "fileA" := by
  have hv : valueOf a = "" := by rcases hd with h | h <;> simp [valueOf, h]
  refine ⟨?_, ?_, ?_, ?_, ?_, ?_, ?_, ?_, ?_, by decide, by decide⟩
  · intro hk
    rw [applyAnn_kind_epic m a hk]
    simp [hv]
  · intro hk
    rw [applyAnn_kind_feature m a hk]
    simp [hv]
  · intro hk
    rw [applyAnn_kind_story m a hk]
    simp [hv]
  · intro hk
    rw [applyAnn_kind_suite m a hk]
    simp [hv]
  · intro hk
    rw [applyAnn_kind_subsuite m a hk]
    simp [hv]
  · intro hk
    rw [applyAnn_kind_parentsuite m a hk]
    simp [hv]
  · intro hk
    rw [applyAnn_kind_severity m a hk]
    simp [hv]
  · intro hk
    rw [applyAnn_kind_owner m a hk]
    simp [hv]
  · intro hk
    rw [applyAnn_kind_description m a hk]
    simp [hv]

/-- Witness for C10: the concrete empty-description `parentsuite` annotation
sets the field to the empty string. -/
theorem c10_empty_value_set_witness :
    (emptyParentAnn.description = none ∨
      emptyParentAnn.description = some "") ∧
    toLowerS emptyParentAnn.type = "parentsuite" ∧
    (applyAnn {} emptyParentAnn).parentSuite = some "" :=
  ⟨Or.inr rfl, by decide,
    (c10_empty_value_set {} emptyParentAnn (Or.inr rfl)).2.2.2.2.2.1
      (by decide)⟩

/-- **C7 counterexample**: `onTestEnd` derives the error trace solely from
`result.errors`, never consulting the status; a result with status `passed`
but a non-empty error list yields an entry whose trace is present while its
status is not failure-class, refuting the claim as stated. -/
theorem c7_error_trace_counterexample :
    (mkEntry passedCase passedWithErrors).errorTrace.isSome = true ∧
    (mkEntry passedCase passedWithErrors).status = Status.passed := by
  constructor <;> rfl

/-- **C7** (error-trace presence, `onTestEnd` line 50 and `formatErrors`
lines 155-167), amended: the formatted error trace of a collected entry is
present *exactly when the result's error list is non-empty*, independent of
the record's status (which is copied through unchanged). -/
theorem c7_error_trace (test : TestCaseInfo) (result : TestResultInfo) :
    (mkEntry test result).errorTrace.isSome = !result.errors.isEmpty ∧
    (mkEntry test result).status = result.status := by
  constructor
  · show (formatErrors result.errors).isSome = _
    cases h : result.errors.isEmpty <;> simp [formatErrors, h]
  · rfl

/-- **C6** (comment-store resilience, `loadExistingComments` lines 229-239):
when the comments file does not exist the empty mapping is returned, and when
the platform JSON parser throws on the content (modelled by `parseJson`
returning `none`, e.g. on the text `not-json`) the `catch` branch returns the
empty mapping instead of propagating the failure. -/
theorem c6_comment_store_resilience
    (parseJson : String → Option (List (String × String)))
    (content : String) (h : parseJson content = none) :
    loadExistingComments parseJson none = [] ∧
    loadExistingComments parseJson (some content) = [] := by
  constructor
  · rfl
  · show (parseJson content).getD [] = []
    rw [h]
    rfl

/-- Witness for C6: a parser that throws on `not-json`. -/
theorem c6_comment_store_resilience_witness :
    ((fun _ : String => (none : Option (List (String × String))))
        "not-json" = none) ∧
    loadExistingComments (fun _ => none) (some "not-json") = [] :=
  ⟨rfl, (c6_comment_store_resilience (fun _ => none) "not-json" rfl).2⟩

theorem startsWithL_append (p rest : List Char) :
    startsWithL p (p ++ rest) = true := by
  induction p with
  | nil => rfl
  | cons c cs ih => simp [startsWithL, ih]

theorem getSubst_no_dollar (m pre post rep : List Char) (h : '$' ∉ rep) :
    getSubst m pre post rep = rep := by
  induction rep with
  | nil => rfl
  | cons c rest ih =>
    simp only [List.mem_cons, not_or] at h
    have hc : ¬ c = '$' := fun hcc => h.1 hcc.symm
    rw [getSubst.eq_def]
    simp only [if_neg hc]
    exact congrArg (c :: ·) (ih h.2)

theorem replaceFirstGo_at (pat rep pre b : List Char) :
    replaceFirstGo pat rep pre (pat ++ b) = getSubst pat pre b rep ++ b := by
  cases hpb : pat ++ b with
  | nil =>
    obtain ⟨hp, hb⟩ := List.append_eq_nil.mp hpb
    subst hp
    subst hb
    simp [replaceFirstGo, startsWithL]
  | cons c cs =>
    have hs : startsWithL pat (c :: cs) = true := by
      rw [← hpb]
      exact startsWithL_append pat b
    have hd : (c :: cs).drop pat.length = b := by
      rw [← hpb]
      exact List.drop_left pat b
    simp only [replaceFirstGo]
    rw [if_pos hs, hd]

theorem replaceFirstGo_split (pat rep a b : List Char)
    (h : ∀ i, i < a.length → startsWithL pat ((a ++ (pat ++ b)).drop i) = false) :
    ∀ pre, replaceFirstGo pat rep pre (a ++ (pat ++ b)) =
      a ++ (getSubst pat (pre ++ a) b rep ++ b) := by
  induction a with
  | nil =>
    intro pre
    simpa using replaceFirstGo_at pat rep pre b
  | cons c cs ih =>
    intro pre
    have h0 := h 0 (by simp)
    simp only [List.drop_zero, List.cons_append] at h0
    show replaceFirstGo pat rep pre (c :: (cs ++ (pat ++ b))) =
      c :: (cs ++ (getSubst pat (pre ++ (c :: cs)) b rep ++ b))
    simp only [replaceFirstGo, h0, Bool.false_eq_true, if_false]
    refine congrArg (c :: ·) ?_
    rw [ih (fun i hi => by
      have := h (i + 1) (by simpa using Nat.succ_lt_succ hi)
      simpa using this) (pre ++ [c])]
    have hps : (pre ++ [c]) ++ cs = pre ++ (c :: cs) := by
      simp
    rw [hps]

theorem replaceFirstL_split (pat rep a b : List Char)
    (h : ∀ i, i < a.length → startsWithL pat ((a ++ (pat ++ b)).drop i) = false) :
    replaceFirstL pat rep (a ++ (pat ++ b)) =
      a ++ (getSubst pat a b rep ++ b) := by
  have := replaceFirstGo_split pat rep a b h []
  simpa [replaceFirstL] using this

theorem occursIn_cons (pat : List Char) (c : Char) (cs : List Char) :
    occursIn pat (c :: cs) = (startsWithL pat (c :: cs) || occursIn pat cs) := rfl

theorem replaceFirstGo_none (pat rep s : List Char)
    (h : occursIn pat s = false) :
    ∀ pre, replaceFirstGo pat rep pre s = s := by
  induction s with
  | nil =>
    intro pre
    have hs : startsWithL pat [] = false := h
    simp [replaceFirstGo, hs]
  | cons c cs ih =>
    intro pre
    rw [occursIn_cons, Bool.or_eq_false_iff] at h
    simp [replaceFirstGo, h.1, ih h.2]

theorem replaceFirstL_none (pat rep s : List Char)
    (h : occursIn pat s = false) : replaceFirstL pat rep s = s :=
  replaceFirstGo_none pat rep s h []

theorem replaceAllGo_fuel (pat rep : List Char) (hp : pat ≠ []) :
    ∀ f₁ f₂ pre l, l.length ≤ f₁ → l.length ≤ f₂ →
      replaceAllGo pat rep f₁ pre l = replaceAllGo pat rep f₂ pre l := by
  intro f₁
  induction f₁ with
  | zero =>
    intro f₂ pre l h₁ _
    have : l = [] := List.length_eq_zero.mp (Nat.le_zero.mp h₁)
    subst this
    cases f₂ <;> rfl
  | succ f ih =>
    intro f₂ pre l h₁ h₂
    cases l with
    | nil => cases f₂ <;> rfl
    | cons c cs =>
      cases f₂ with
      | zero => simp at h₂
      | succ g =>
        have hpl : 1 ≤ pat.length := by
          cases pat with
          | nil => exact absurd rfl hp
          | cons q qs => simp
        simp only [replaceAllGo]
        by_cases hs : startsWithL pat (c :: cs) = true
        · rw [if_pos hs, if_pos hs]
          refine congrArg (getSubst pat pre ((c :: cs).drop pat.length) rep ++ ·)
            (ih g (pre ++ pat) ((c :: cs).drop pat.length) ?_ ?_)
          · simp only [List.length_drop, List.length_cons] at *
            omega
          · simp only [List.length_drop, List.length_cons] at *
            omega
        · rw [if_neg hs, if_neg hs]
          refine congrArg (c :: ·) (ih g (pre ++ [c]) cs ?_ ?_)
          · simp at h₁; omega
          · simp at h₂; omega

theorem replaceAllFrom_at (pat rep a b : List Char) (hp : pat ≠ [])
    (h : ∀ i, i < a.length → startsWithL pat ((a ++ (pat ++ b)).drop i) = false) :
    ∀ pre, replaceAllFrom pat rep pre (a ++ (pat ++ b)) =
      a ++ (getSubst pat (pre ++ a) b rep ++
        replaceAllFrom pat rep ((pre ++ a) ++ pat) b) := by
  induction a with
  | nil =>
    intro pre
    simp only [List.nil_append, List.append_nil]
    show replaceAllGo pat rep (pat ++ b).length pre (pat ++ b) = _
    have hpl : 1 ≤ pat.length := by
      cases pat with
      | nil => exact absurd rfl hp
      | cons q qs => simp
    cases hpb : pat ++ b with
    | nil =>
      obtain ⟨hp', _⟩ := List.append_eq_nil.mp hpb
      exact absurd hp' hp
    | cons c cs =>
      rw [← hpb]
      have hlen : (pat ++ b).length = cs.length + 1 := by rw [hpb]; rfl
      rw [hlen]
      rw [show replaceAllGo pat rep (cs.length + 1) pre (pat ++ b) =
        replaceAllGo pat rep (cs.length + 1) pre (c :: cs) from by rw [hpb]]
      rw [replaceAllGo]
      rw [show (c :: cs) = pat ++ b from hpb.symm, startsWithL_append,
        if_pos rfl, List.drop_left]
      refine congrArg (getSubst pat pre b rep ++ ·) ?_
      refine replaceAllGo_fuel pat rep hp cs.length b.length (pre ++ pat) b ?_
        (le_refl _)
      have : pat.length + b.length = cs.length + 1 := by
        simpa using hlen
      omega
  | cons c cs ih =>
    intro pre
    have h0 := h 0 (by simp)
    simp only [List.drop_zero, List.cons_append] at h0
    show replaceAllGo pat rep (c :: (cs ++ (pat ++ b))).length pre
      (c :: (cs ++ (pat ++ b))) = _
    simp only [List.length_cons]
    rw [replaceAllGo]
    simp only [h0, Bool.false_eq_true, if_false]
    rw [replaceAllGo_fuel pat rep hp (cs ++ (pat ++ b)).length
      (cs ++ (pat ++ b)).length (pre ++ [c]) (cs ++ (pat ++ b)) (le_refl _)
      (le_refl _)]
    refine congrArg (c :: ·) ?_
    rw [show replaceAllGo pat rep (cs ++ (pat ++ b)).length (pre ++ [c])
        (cs ++ (pat ++ b)) =
      replaceAllFrom pat rep (pre ++ [c]) (cs ++ (pat ++ b)) from rfl]
    rw [ih (fun i hi => by
      have := h (i + 1) (by simpa using Nat.succ_lt_succ hi)
      simpa using this) (pre ++ [c])]
    have hps : (pre ++ [c]) ++ cs = pre ++ (c :: cs) := by
      simp
    rw [hps]
    rfl

theorem replaceAllFrom_none (pat rep s : List Char)
    (h : occursIn pat s = false) :
    ∀ pre, replaceAllFrom pat rep pre s = s := by
  suffices hgo : ∀ f pre, replaceAllGo pat rep f pre s = s by
    exact fun pre => hgo s.length pre
  induction s with
  | nil => intro f pre; cases f <;> rfl
  | cons c cs ih =>
    rw [occursIn_cons, Bool.or_eq_false_iff] at h
    intro f pre
    cases f with
    | zero => rfl
    | succ g =>
      rw [replaceAllGo]
      simp only [h.1, Bool.false_eq_true, if_false]
      exact congrArg (c :: ·) (ih h.2 g (pre ++ [c]))

/-- **C8 counterexample**: `String.prototype.replace` applies ECMA-262
GetSubstitution to the replacement string, so a serialized summary containing
`$$` is *not* inserted verbatim: rendering a template that is exactly the
data marker with the data string `$$` produces `$`, not `$$`. -/
theorem c8_template_substitution_counterexample :
    renderTemplate dataMarker [] [] ['$', '$'] [] [] = ['$'] ∧
    (['$'] : List Char) ≠ ['$', '$'] := by
  constructor
  · decide
  · decide

/-- **C8** (template substitution, `generateHTMLReport` lines 281-287),
amended: a single-shot marker (style, script, data) is substituted exactly at
its first occurrence — with the GetSubstitution expansion of the supplied
content, which is the content itself whenever it contains no `$` — while the
prefix before it and everything after it, including any later occurrence of
the same marker text, are preserved verbatim, and an absent marker leaves the
text unchanged; the title placeholder is substituted at *every* occurrence,
likewise through GetSubstitution.  On the concrete `dupTemplate`, whose
style/script/data markers each occur twice and whose `$`-free contents are
unaffected by GetSubstitution, `renderTemplate` replaces each single-shot
marker exactly once and both title placeholders. -/
theorem c8_template_substitution (rep a b s pre : List Char) :
    (∀ pat, (∀ i, i < a.length →
        startsWithL pat ((a ++ (pat ++ b)).drop i) = false) →
      replaceFirstL pat rep (a ++ (pat ++ b)) =
        a ++ (getSubst pat a b rep ++ b)) ∧
    (∀ m q t, '$' ∉ rep → getSubst m q t rep = rep) ∧
    (∀ pat, occursIn pat s = false → replaceFirstL pat rep s = s) ∧
    ((∀ i, i < a.length →
        startsWithL titleMarker ((a ++ (titleMarker ++ b)).drop i) = false) →
      replaceAllFrom titleMarker rep pre (a ++ (titleMarker ++ b)) =
        a ++ (getSubst titleMarker (pre ++ a) b rep ++
          replaceAllFrom titleMarker rep ((pre ++ a) ++ titleMarker) b)) ∧
    (occursIn titleMarker s = false →
      replaceAllFrom titleMarker rep pre s = s) ∧
    replaceAllL titleMarker rep s = replaceAllFrom titleMarker rep [] s ∧
    renderTemplate dupTemplate "CSS".data "JS".data "DATA".data "TTL".data
      "LOGO".data = dupExpected :=
  ⟨fun pat h => replaceFirstL_split pat rep a b h,
   fun m q t h => getSubst_no_dollar m q t rep h,
   fun pat h => replaceFirstL_none pat rep s h,
   fun h => replaceAllFrom_at titleMarker rep a b (by decide) h pre,
   fun h => replaceAllFrom_none titleMarker rep s h pre,
   rfl,
   by decide⟩

/-- Witness for C8 at concrete inputs: the style marker in a text containing
it twice is replaced at the first occurrence only (the `$`-free content
passing through GetSubstitution unchanged), and replacing the title
placeholder in text not containing it is the identity. -/
theorem c8_template_substitution_witness :
    (∀ i, i < ("<a>".data).length →
      startsWithL styleMarker (("<a>".data ++
        (styleMarker ++ ("<b>".data ++ styleMarker))).drop i) = false) ∧
    ('$' ∉ "R".data ∧
      getSubst styleMarker "<a>".data ("<b>".data ++ styleMarker) "R".data =
        "R".data) ∧
    replaceFirstL styleMarker "R".data
        ("<a>".data ++ (styleMarker ++ ("<b>".data ++ styleMarker))) =
      "<a>".data ++
        (getSubst styleMarker "<a>".data ("<b>".data ++ styleMarker) "R".data ++
          ("<b>".data ++ styleMarker)) ∧
    occursIn titleMarker "zz".data = false ∧
    replaceAllFrom titleMarker "R".data "q".data "zz".data = "zz".data ∧
    replaceAllFrom titleMarker "R".data "q".data
        ("<a>".data ++ (titleMarker ++ "<b>".data)) =
      "<a>".data ++
        (getSubst titleMarker ("q".data ++ "<a>".data) "<b>".data "R".data ++
          replaceAllFrom titleMarker "R".data
            (("q".data ++ "<a>".data) ++ titleMarker) "<b>".data) :=
  ⟨by decide,
   ⟨by decide,
    (c8_template_substitution "R".data "<a>".data ("<b>".data ++ styleMarker)
       "zz".data "q".data).2.1 styleMarker "<a>".data
      ("<b>".data ++ styleMarker) (by decide)⟩,
   (c8_template_substitution "R".data "<a>".data ("<b>".data ++ styleMarker)
      "zz".data "q".data).1 styleMarker (by decide),
   by decide,
   (c8_template_substitution "R".data "<a>".data ("<b>".data ++ styleMarker)
      "zz".data "q".data).2.2.2.2.1 (by decide),
   (c8_template_substitution "R".data "<a>".data "<b>".data
      "zz".data "q".data).2.2.2.1 (by decide)⟩

/-- **C9** (logo embedding, `generateHTMLReport` lines 268-279): no
configured logo, or a logo file that cannot be located, yields the empty
string; otherwise the marker content is an inline image whose payload is the
base64 encoding of the file bytes and whose MIME type derives from the
lower-cased file extension (`.png`→image/png, `.jpg`/`.jpeg`→image/jpeg,
`.svg`→image/svg+xml, anything else image/png); concrete encodings
([1,2,3]→AQID, [77,97,110]→TWFu, upper-case `.JPG` extension) included. -/
theorem c9_logo_embedding (logo : String) (bytes : List Nat)
    (fc : Option (List Nat)) :
    buildLogoHtml "" fc = [] ∧
    buildLogoHtml logo none = [] ∧
    (logo ≠ "" → buildLogoHtml logo (some bytes) =
      "<img src=\"data:".data ++
        logoMime ((extnameL logo.data).map Char.toLower) ++ ";base64,".data ++
        base64Encode bytes ++ "\" alt=\"Logo\">".data) ∧
    logoMime ".png".data = "image/png".data ∧
    logoMime ".jpg".data = "image/jpeg".data ∧
    logoMime ".jpeg".data = "image/jpeg".data ∧
    logoMime ".svg".data = "image/svg+xml".data ∧
    logoMime ".gif".data = "image/png".data ∧
    buildLogoHtml "logo.png" (some [1, 2, 3]) =
      "<img src=\"data:image/png;base64,AQID\" alt=\"Logo\">".data ∧
    buildLogoHtml "assets/photo.JPG" (some [77, 97, 110]) =
      "<img src=\"data:image/jpeg;base64,TWFu\" alt=\"Logo\">".data := by
  refine ⟨?_, ?_, ?_, by decide, by decide, by decide, by decide, by decide,
    by decide, by decide⟩
  · simp [buildLogoHtml]
  · by_cases h : logo = "" <;> simp [buildLogoHtml, h]
  · intro h
    simp [buildLogoHtml, h]

/-- Witness for C9: a configured `.svg` logo with empty content embeds with
the SVG MIME type. -/
theorem c9_logo_embedding_witness :
    ("x.svg" : String) ≠ "" ∧
    buildLogoHtml "x.svg" (some []) =
      "<img src=\"data:".data ++
        logoMime ((extnameL ("x.svg" : String).data).map Char.toLower) ++
        ";base64,".data ++ base64Encode [] ++ "\" alt=\"Logo\">".data :=
  ⟨by decide, (c9_logo_embedding "x.svg" [] none).2.2.1 (by decide)⟩
